import Mathlib

/-!
Verification of the echoflow pipeline core: the graph resolver
(`FlowChart::get_pipeline_chain`) and the sequential execution engine
(`FlowChart::run_pipeline_with_intermediates`) from
`src/echoflow_app/src/flowchart.rs`, together with the `RunPipeline`
branch of `PipelineApp::execute_command` from `src/echoflow_app/src/app.rs`.

Embedding conventions:
* `usize` node identities become `Nat`.
* `egui::Pos2` / `egui::Vec2` become two-field `Float` records (their values
  are only stored and copied by the code under verification, never computed
  with).
* The two `HashMap`s built by `get_pipeline_chain` are modelled by the
  functions they denote after the build loops finish: `incoming` maps a node
  id to the number of connections ending at it (`indegree`), and `outgoing`
  maps an id to the `to` endpoint of the *last* connection in iteration order
  whose `from` endpoint is that id (`outSucc`), because a `HashMap` insert
  overwrites the previous value for the key.
* The `while let` walk of `get_pipeline_chain` has no termination guarantee
  in the source, so it is embedded step-indexed: `walkFrom` runs the loop for
  at most `fuel` iterations and returns `none` when the loop has not exited
  within that budget.  `getPipelineChainFuel fc fuel = none` therefore means
  "still looping after `fuel` iterations", and the function's big-step
  behaviour is `chainReturns`: the Rust function returns `r` iff some finite
  fuel suffices.
* Process execution is effectful, so the engine is embedded relative to a
  `World` oracle describing what the operating system does for each spawned
  stage; the engine's control flow, error strings and lossy decoding
  structure are translated literally from the source.
-/

namespace EchoFlow

/-- Two-dimensional point, standing in for `egui::Pos2`. -/
structure Pos2 where
  x : Float
  y : Float

/-- Two-dimensional vector, standing in for `egui::Vec2`. -/
structure Vec2 where
  x : Float
  y : Float

/-- A node in the flow-chart (`struct Node`, flowchart.rs lines 7-13). -/
structure Node where
  id : Nat
  pos : Pos2
  command : String
  output : String

/-- A connection between two nodes (`struct Connection`, flowchart.rs lines 15-20). -/
structure Connection where
  «from» : Nat
  «to» : Nat

/-- The flow-chart state (`struct FlowChart`, flowchart.rs lines 22-38). -/
structure FlowChart where
  nodes : List Node
  connections : List Connection
  next_id : Nat
  selected_node : Option Nat
  connection_start : Option Nat
  pan_offset : Vec2
  zoom : Float
  main_view_rect_size : Option Vec2

/-- Value of the `incoming` map of `get_pipeline_chain` at key `k` after the
two build loops (flowchart.rs lines 84-92): every node id is inserted with
count `0`, then each connection increments the entry for its `to` endpoint,
so the final count is the number of connections ending at `k`. -/
def indegree (conns : List Connection) (k : Nat) : Nat :=
  conns.countP (fun c => c.«to» == k)

/-- Value of the `outgoing` map of `get_pipeline_chain` at key `k` after the
build loop (flowchart.rs lines 89-92): `outgoing.insert(conn.from, conn.«to»)`
overwrites earlier entries, so the lookup returns the `to` endpoint of the
last connection whose `from` endpoint is `k`, i.e. the first such connection
of the reversed list. -/
def outSucc (conns : List Connection) (k : Nat) : Option Nat :=
  (conns.reverse.find? (fun c => c.«from» == k)).map (fun c => c.«to»)

/-- The start node chosen by `get_pipeline_chain` (flowchart.rs lines 93-97):
the first node, in the node list's order, whose in-degree is zero. -/
def startNode? (fc : FlowChart) : Option Node :=
  fc.nodes.find? (fun n => indegree fc.connections n.id == 0)

/-- Step-indexed embedding of the `while let Some(&next) = outgoing.get(&current)`
walk (flowchart.rs lines 98-103).  One unit of fuel allows one loop test;
`none` means the loop has not exited within the given fuel. -/
def walkFrom (conns : List Connection) : Nat → Nat → List Nat → Option (List Nat)
  | 0, _, _ => none
  | fuel + 1, current, chain =>
    match outSucc conns current with
    | none => some chain
    | some next => walkFrom conns fuel next (chain ++ [next])

/-- Step-indexed embedding of `get_pipeline_chain` (flowchart.rs lines 83-105).
`none` means the walk is still looping after `fuel` iterations; `some none`
means the Rust function returned `None` (no start node); `some (some c)`
means it returned `Some(c)`. -/
def getPipelineChainFuel (fc : FlowChart) (fuel : Nat) : Option (Option (List Nat)) :=
  match startNode? fc with
  | none => some none
  | some s => (walkFrom fc.connections fuel s.id [s.id]).map some

/-- Big-step behaviour of `get_pipeline_chain`: the function returns `r`
exactly when the walk finishes within some finite number of iterations. -/
def chainReturns (fc : FlowChart) (r : Option (List Nat)) : Prop :=
  ∃ fuel, getPipelineChainFuel fc fuel = some r

/-- Result of a finished stage process: exit status and the captured bytes of
its standard output and standard error (`std::process::Output`). -/
structure Output where
  success : Bool
  stdout : List Nat
  stderr : List Nat

/-- What the operating system does for one piped stage of
`run_pipeline_with_intermediates` (flowchart.rs lines 132-153): the spawn can
fail, the stdin handle can be absent, writing the input can fail, waiting can
fail, or the stage runs to completion with an `Output`. -/
inductive PipeExec where
  | spawnFail (e : String)
  | stdinFail
  | writeFail (e : String)
  | waitFail (e : String)
  | done (o : Output)

/-- Oracle for the effectful parts of the engine: `lossy` is
`String::from_utf8_lossy` (used identically for stdout and stderr),
`firstRun` is the behaviour of `Command::output()` for the first stage
(flowchart.rs lines 119-123), and `pipeRun i c inp` is the behaviour of the
piped stage at position `i` running command `c` with `inp` written to its
standard input. -/
structure World where
  lossy : List Nat → String
  firstRun : String → Except String Output
  pipeRun : Nat → String → String → PipeExec

/-- The piped-stage loop of `run_pipeline_with_intermediates`
(flowchart.rs lines 132-157): `idx` is the stage position, `input` the
previous stage's decoded output. -/
def runStages (w : World) : Nat → String → List String → Except String (List String)
  | _, _, [] => .ok []
  | idx, input, c :: rest =>
    match w.pipeRun idx c input with
    | .spawnFail e => .error ("Failed to run command '" ++ c ++ "': " ++ e)
    | .stdinFail => .error "Failed to open stdin"
    | .writeFail e => .error ("Failed to write to stdin: " ++ e)
    | .waitFail e => .error ("Error waiting on command '" ++ c ++ "': " ++ e)
    | .done o =>
      if o.success then
        match runStages w (idx + 1) (w.lossy o.stdout) rest with
        | .ok outs => .ok (w.lossy o.stdout :: outs)
        | .error e => .error e
      else .error (w.lossy o.stderr)

/-- Embedding of `run_pipeline_with_intermediates` (flowchart.rs lines
109-160) relative to the oracle `w`. -/
def runPipeline (w : World) (commands : List String) : Except String (List String) :=
  match commands with
  | [] => .ok []
  | c0 :: rest =>
    match w.firstRun c0 with
    | .error e => .error ("Failed to run command '" ++ c0 ++ "': " ++ e)
    | .ok o =>
      if o.success then
        match runStages w 1 (w.lossy o.stdout) rest with
        | .ok outs => .ok (w.lossy o.stdout :: outs)
        | .error e => .error e
      else .error (w.lossy o.stderr)

/-- What stage `i` of the pipeline experiences, if the run reaches it:
auxiliary walk over the piped stages. -/
def execAtAux (w : World) : Nat → String → List String → Nat → Option PipeExec
  | _, _, [], _ => none
  | idx, input, c :: _, 0 => some (w.pipeRun idx c input)
  | idx, input, c :: rest, i + 1 =>
    match w.pipeRun idx c input with
    | .done o =>
      if o.success then execAtAux w (idx + 1) (w.lossy o.stdout) rest i else none
    | _ => none

/-- What stage `i` of `runPipeline w commands` experiences, if the run
reaches it (`none` when an earlier stage already stopped the run or `i` is
out of range).  The first stage's `Command::output()` call is folded into
`PipeExec`: an I/O error behaves as a spawn failure and a completed process
as `done`. -/
def execAt (w : World) (commands : List String) (i : Nat) : Option PipeExec :=
  match commands, i with
  | [], _ => none
  | c0 :: _, 0 =>
    some (match w.firstRun c0 with
          | .error e => .spawnFail e
          | .ok o => .done o)
  | c0 :: rest, i + 1 =>
    match w.firstRun c0 with
    | .error _ => none
    | .ok o =>
      if o.success then execAtAux w 1 (w.lossy o.stdout) rest i else none

/-- Whether a stage outcome stops the run: any spawn, stdin, write or wait
failure, or a completed process with unsuccessful exit status. -/
def PipeExec.failed : PipeExec → Bool
  | .done o => !o.success
  | _ => true

/-- Number of piped stages for which a spawn is attempted by the loop of
`run_pipeline_with_intermediates`: one per iteration entered, mirroring the
control flow of `runStages`. -/
def countStages (w : World) : Nat → String → List String → Nat
  | _, _, [] => 0
  | idx, input, c :: rest =>
    match w.pipeRun idx c input with
    | .done o =>
      if o.success then 1 + countStages w (idx + 1) (w.lossy o.stdout) rest else 1
    | _ => 1

/-- Number of stages for which `run_pipeline_with_intermediates` attempts to
start a process, mirroring the control flow of `runPipeline`. -/
def spawnedCount (w : World) (commands : List String) : Nat :=
  match commands with
  | [] => 0
  | c0 :: rest =>
    match w.firstRun c0 with
    | .error _ => 1
    | .ok o =>
      if o.success then 1 + countStages w 1 (w.lossy o.stdout) rest else 1

/-- The blocking calls a piped stage performs, in program order
(flowchart.rs lines 133-150): spawn the child, `write_all` the entire
previous output to the child's standard input, drop the handle (closing
stdin), then `wait_with_output` which reads the child's standard output to
the end.  The source performs these strictly in sequence on one thread. -/
inductive StageEvent where
  | spawn
  | writeAllStdin
  | closeStdin
  | waitAndReadStdout
deriving DecidableEq, BEq

/-- Program-order list of the blocking calls of one piped stage of
`run_pipeline_with_intermediates`. -/
def pipedStageEventOrder : List StageEvent :=
  [.spawn, .writeAllStdin, .closeStdin, .waitAndReadStdout]

/-- Commands the UI layer can issue (`enum FlowChartCommand`, commands.rs). -/
inductive FlowChartCommand where
  | addNode
  | runPipeline
  | deleteSelectedNode
  | panLeft
  | panRight
  | panUp
  | panDown
  | zoomIn
  | zoomOut

/-- Application state (`struct PipelineApp`, app.rs lines 5-8). -/
structure PipelineApp where
  flowchart : FlowChart
  pipeline_output : String

/-- `FlowChart::add_node` (flowchart.rs lines 57-66). -/
def FlowChart.addNode (fc : FlowChart) : FlowChart :=
  { fc with
    nodes := fc.nodes ++
      [{ id := fc.next_id, pos := ⟨50.0, 50.0⟩,
         command := "echo Node " ++ toString fc.next_id, output := "" }],
    next_id := fc.next_id + 1 }

/-- Overwrite the output of the first node with the given id, as
`nodes.iter_mut().find(|n| n.id == *id)` does (app.rs lines 36-40). -/
def setOutputFirst (nodes : List Node) (k : Nat) (out : String) : List Node :=
  match nodes with
  | [] => []
  | n :: rest =>
    if n.id == k then { n with output := out } :: rest
    else n :: setOutputFirst rest k out

/-- The write-back loop of `execute_command`'s success branch (app.rs lines
35-41): for each chain position `i` with id `id`, the first node with that id
gets `outputs.get(i).cloned().unwrap_or_default()`. -/
def applyOutputs (nodes : List Node) (chain : List Nat) (outputs : List String) : List Node :=
  chain.enum.foldl (fun ns p => setOutputFirst ns p.2 ((outputs.get? p.1).getD "")) nodes

/-- The command list built from a chain (app.rs lines 28-32): ids without a
matching node are silently dropped by `filter_map`. -/
def commandsOf (fc : FlowChart) (chain : List Nat) : List String :=
  (chain.filterMap (fun k => fc.nodes.find? (fun n => n.id == k))).map (fun n => n.command)

/-- Embedding of `PipelineApp::execute_command` (app.rs lines 21-81) relative
to the oracle `w`; `fuel` bounds the resolver walk of the `RunPipeline`
branch, and the result is `none` exactly when that walk is still looping. -/
def executeCommand (w : World) (fuel : Nat) (cmd : FlowChartCommand) (s : PipelineApp) :
    Option PipelineApp :=
  match cmd with
  | .addNode => some { s with flowchart := s.flowchart.addNode }
  | .runPipeline =>
    match getPipelineChainFuel s.flowchart fuel with
    | none => none
    | some none => some { s with pipeline_output := "No valid pipeline chain found." }
    | some (some chain) =>
      match runPipeline w (commandsOf s.flowchart chain) with
      | .ok outputs =>
        some { flowchart :=
                { s.flowchart with nodes := applyOutputs s.flowchart.nodes chain outputs },
               pipeline_output := outputs.getLast?.getD "" }
      | .error e => some { s with pipeline_output := e }
  | .deleteSelectedNode =>
    match s.flowchart.selected_node with
    | none => some s
    | some sel =>
      some { s with flowchart :=
        { s.flowchart with
          nodes := s.flowchart.nodes.filter (fun n => n.id != sel),
          connections :=
            s.flowchart.connections.filter (fun c => c.«from» != sel && c.«to» != sel),
          connection_start :=
            if s.flowchart.connection_start = some sel then none
            else s.flowchart.connection_start,
          selected_node := none } }
  | .panLeft =>
    some { s with flowchart := { s.flowchart with
      pan_offset := ⟨s.flowchart.pan_offset.x + 20.0, s.flowchart.pan_offset.y⟩ } }
  | .panRight =>
    some { s with flowchart := { s.flowchart with
      pan_offset := ⟨s.flowchart.pan_offset.x - 20.0, s.flowchart.pan_offset.y⟩ } }
  | .panUp =>
    some { s with flowchart := { s.flowchart with
      pan_offset := ⟨s.flowchart.pan_offset.x, s.flowchart.pan_offset.y + 20.0⟩ } }
  | .panDown =>
    some { s with flowchart := { s.flowchart with
      pan_offset := ⟨s.flowchart.pan_offset.x, s.flowchart.pan_offset.y - 20.0⟩ } }
  | .zoomIn =>
    some { s with flowchart := { s.flowchart with zoom := s.flowchart.zoom * 1.1 } }
  | .zoomOut =>
    some { s with flowchart := { s.flowchart with zoom := s.flowchart.zoom / 1.1 } }

/-- The connection list of a simple path graph `l.head → ... → l.getLast`:
one connection per consecutive pair of `l`, and nothing else. -/
def pathEdges : List Nat → List Connection
  | [] => []
  | [_] => []
  | a :: b :: rest => ⟨a, b⟩ :: pathEdges (b :: rest)

/-- Test node with a given id and command, positioned like `add_node` does. -/
def mkNode (k : Nat) (cmd : String) : Node :=
  { id := k, pos := ⟨50.0, 50.0⟩, command := cmd, output := "" }

/-- The `FlowChart::default()` state (flowchart.rs lines 40-53). -/
def emptyChart : FlowChart :=
  { nodes := [], connections := [], next_id := 1, selected_node := none,
    connection_start := none, pan_offset := ⟨0.0, 0.0⟩, zoom := 1.0,
    main_view_rect_size := none }

/-- Graph with a cycle reachable from the start node `1`:
`1 → 2 → 3 → 2`. -/
def gCyc : FlowChart :=
  { emptyChart with
    nodes := [mkNode 1 "echo a", mkNode 2 "cat", mkNode 3 "cat"],
    connections := [⟨1, 2⟩, ⟨2, 3⟩, ⟨3, 2⟩] }

/-- Simple path graph `1 → 2 → 3`. -/
def gPath : FlowChart :=
  { emptyChart with
    nodes := [mkNode 1 "echo a", mkNode 2 "cat", mkNode 3 "wc -c"],
    connections := pathEdges [1, 2, 3] }

/-- Graph with one node and no connections. -/
def gNoEdge : FlowChart :=
  { emptyChart with nodes := [mkNode 7 "echo g"] }

/-- Graph whose single connection points at id `5`, which is not the id of
any node. -/
def gDangling : FlowChart :=
  { emptyChart with nodes := [mkNode 1 "echo a"], connections := [⟨1, 5⟩] }

/-- Two-node cycle with no entry point: every node has in-degree one. -/
def gCycNoEntry : FlowChart :=
  { emptyChart with
    nodes := [mkNode 1 "echo a", mkNode 2 "cat"],
    connections := [⟨1, 2⟩, ⟨2, 1⟩] }

/-- Graph with a single node whose command will fail. -/
def gOneNode : FlowChart :=
  { emptyChart with nodes := [mkNode 1 "false"] }

/-- Oracle in which every process succeeds with empty output. -/
def wOk : World :=
  { lossy := fun _ => "",
    firstRun := fun _ => .ok ⟨true, [], []⟩,
    pipeRun := fun _ _ _ => .done ⟨true, [], []⟩ }

/-- Oracle in which the first stage succeeds with stdout bytes `[104, 105]`
and every piped stage exits unsuccessfully with stderr bytes `[66, 67]`. -/
def wStage2Fails : World :=
  { lossy := fun bs => toString bs.length,
    firstRun := fun _ => .ok ⟨true, [104, 105], []⟩,
    pipeRun := fun _ _ _ => .done ⟨false, [], [66, 67]⟩ }

/-- Oracle in which the first stage exits unsuccessfully with stderr bytes
`[70]`, decoded to `"ERR"`. -/
def wFirstFails : World :=
  { lossy := fun _ => "ERR",
    firstRun := fun _ => .ok ⟨false, [], [70]⟩,
    pipeRun := fun _ _ _ => .done ⟨true, [], []⟩ }

/-- Application state holding `gOneNode` and no prior output. -/
def appOneNode : PipelineApp := ⟨gOneNode, ""⟩

/-- Application state holding `gCycNoEntry` and no prior output. -/
def appCycNoEntry : PipelineApp := ⟨gCycNoEntry, ""⟩

/-- Application state holding the default (empty) flow-chart. -/
def appEmpty : PipelineApp := ⟨emptyChart, ""⟩

/-- The suffix appended by a terminating walk: `SuffWalk conns cur ext` holds
when, starting at `cur`, repeatedly following `outSucc` visits exactly the
nodes of `ext` in order and then stops at a node with no successor. -/
inductive SuffWalk (conns : List Connection) : Nat → List Nat → Prop where
  | nil (cur : Nat) (h : outSucc conns cur = none) : SuffWalk conns cur []
  | cons (cur next : Nat) (ext : List Nat) (h : outSucc conns cur = some next)
      (hs : SuffWalk conns next ext) : SuffWalk conns cur (next :: ext)

theorem outSucc_exists_conn {conns : List Connection} {a b : Nat}
    (h : outSucc conns a = some b) :
    ∃ conn ∈ conns, conn.«from» = a ∧ conn.«to» = b := by
  unfold outSucc at h
  rw [Option.map_eq_some'] at h
  obtain ⟨conn, hfind, hto⟩ := h
  have hmem : conn ∈ conns := List.mem_reverse.mp (List.mem_of_find?_eq_some hfind)
  have hfrom : conn.«from» = a := by
    have := List.find?_some hfind
    simpa using this
  exact ⟨conn, hmem, hfrom, hto⟩

theorem walkFrom_sound (conns : List Connection) :
    ∀ (fuel cur : Nat) (chain c : List Nat),
      walkFrom conns fuel cur chain = some c →
      ∃ ext, c = chain ++ ext ∧ SuffWalk conns cur ext := by
  intro fuel
  induction fuel with
  | zero => intro cur chain c h; simp [walkFrom] at h
  | succ n ih =>
    intro cur chain c h
    rw [walkFrom] at h
    cases hsucc : outSucc conns cur with
    | none =>
      rw [hsucc] at h
      refine ⟨[], ?_, SuffWalk.nil cur hsucc⟩
      simpa using h.symm
    | some next =>
      rw [hsucc] at h
      obtain ⟨ext, hc, hw⟩ := ih next (chain ++ [next]) c h
      exact ⟨next :: ext, by simpa using hc, SuffWalk.cons cur next ext hsucc hw⟩

theorem suffWalk_exists_fuel {conns : List Connection} {cur : Nat} {ext : List Nat}
    (h : SuffWalk conns cur ext) :
    ∀ chain, ∃ fuel, walkFrom conns fuel cur chain = some (chain ++ ext) := by
  induction h with
  | nil cur h => intro chain; exact ⟨1, by simp [walkFrom, h]⟩
  | cons cur next ext h hs ih =>
    intro chain
    obtain ⟨fuel, hf⟩ := ih (chain ++ [next])
    exact ⟨fuel + 1, by simpa [walkFrom, h] using hf⟩

theorem suffWalk_chain' {conns : List Connection} {cur : Nat} {ext : List Nat}
    (h : SuffWalk conns cur ext) :
    List.Chain' (fun a b => outSucc conns a = some b) (cur :: ext) := by
  induction h with
  | nil cur h => simp
  | cons cur next ext h hs ih => exact List.Chain'.cons' ih (by simp [h])

theorem suffWalk_last_none {conns : List Connection} {cur : Nat} {ext : List Nat}
    (h : SuffWalk conns cur ext) :
    outSucc conns ((cur :: ext).getLast (by simp)) = none := by
  induction h with
  | nil cur h => simpa using h
  | cons cur next ext h hs ih => simpa [List.getLast_cons] using ih

theorem suffWalk_mem_to {conns : List Connection} {cur : Nat} {ext : List Nat}
    (h : SuffWalk conns cur ext) :
    ∀ x ∈ ext, ∃ conn ∈ conns, conn.«to» = x := by
  induction h with
  | nil cur h => simp
  | cons cur next ext h hs ih =>
    intro x hx
    rcases List.mem_cons.mp hx with rfl | hx
    · obtain ⟨conn, hmem, -, hto⟩ := outSucc_exists_conn h
      exact ⟨conn, hmem, hto⟩
    · exact ih x hx

theorem suffWalk_deterministic {conns : List Connection} {cur : Nat} {l1 : List Nat}
    (h1 : SuffWalk conns cur l1) :
    ∀ l2, SuffWalk conns cur l2 → l1 = l2 := by
  induction h1 with
  | nil cur h =>
    intro l2 h2
    cases h2 with
    | nil _ _ => rfl
    | cons _ next ext h' hs => rw [h] at h'; exact absurd h' (by simp)
  | cons cur next ext h hs ih =>
    intro l2 h2
    cases h2 with
    | nil _ h' => rw [h] at h'; exact absurd h' (by simp)
    | cons _ next' ext' h' hs' =>
      rw [h] at h'
      cases Option.some.inj h'
      rw [ih ext' hs']

theorem suffWalk_of_mem {conns : List Connection} {cur : Nat} {l : List Nat}
    (h : SuffWalk conns cur l) :
    ∀ x ∈ l, ∃ l', SuffWalk conns x l' ∧ l'.length < l.length := by
  induction h with
  | nil cur h => simp
  | cons cur next ext h hs ih =>
    intro x hx
    rcases List.mem_cons.mp hx with rfl | hx
    · exact ⟨ext, hs, by simp⟩
    · obtain ⟨l', hw, hlen⟩ := ih x hx
      exact ⟨l', hw, lt_trans hlen (by simp)⟩

theorem suffWalk_not_mem {conns : List Connection} {cur : Nat} {l : List Nat}
    (h : SuffWalk conns cur l) : cur ∉ l := by
  intro hmem
  obtain ⟨l', hw, hlen⟩ := suffWalk_of_mem h cur hmem
  rw [suffWalk_deterministic h l' hw] at hlen
  exact absurd hlen (lt_irrefl _)

theorem suffWalk_nodup {conns : List Connection} {cur : Nat} {ext : List Nat}
    (h : SuffWalk conns cur ext) : (cur :: ext).Nodup := by
  induction h with
  | nil cur h => simp
  | cons cur next ext h hs ih =>
    exact List.nodup_cons.mpr ⟨suffWalk_not_mem (SuffWalk.cons cur next ext h hs), ih⟩

theorem chainReturns_some_elim {fc : FlowChart} {c : List Nat}
    (h : chainReturns fc (some c)) :
    ∃ s ext, startNode? fc = some s ∧ c = s.id :: ext ∧
      SuffWalk fc.connections s.id ext := by
  obtain ⟨fuel, h⟩ := h
  unfold getPipelineChainFuel at h
  cases hs : startNode? fc with
  | none => rw [hs] at h; exact absurd (Option.some.inj h) (by simp)
  | some s =>
    rw [hs] at h
    rw [Option.map_eq_some'] at h
    obtain ⟨a, hw, ha⟩ := h
    obtain ⟨ext, hc, hsw⟩ := walkFrom_sound fc.connections fuel s.id [s.id] a hw
    refine ⟨s, ext, rfl, ?_, hsw⟩
    rw [← Option.some.inj ha, hc]
    rfl

theorem chainReturns_of_start_suffWalk {fc : FlowChart} {s : Node} {ext : List Nat}
    (hs : startNode? fc = some s) (hw : SuffWalk fc.connections s.id ext) :
    chainReturns fc (some (s.id :: ext)) := by
  obtain ⟨fuel, hf⟩ := suffWalk_exists_fuel hw [s.id]
  exact ⟨fuel, by simp [getPipelineChainFuel, hs, hf]⟩

theorem suffWalk_congr {conns conns' : List Connection} {cur : Nat} {ext : List Nat}
    (hagree : ∀ z, z = cur ∨ z ∈ ext → outSucc conns z = outSucc conns' z)
    (h : SuffWalk conns cur ext) : SuffWalk conns' cur ext := by
  induction h with
  | nil cur h =>
    exact SuffWalk.nil cur ((hagree cur (Or.inl rfl)).symm.trans h)
  | cons cur next ext h hs ih =>
    refine SuffWalk.cons cur next ext ((hagree cur (Or.inl rfl)).symm.trans h) (ih ?_)
    intro z hz
    rcases hz with rfl | hz
    · exact hagree z (Or.inr (List.mem_cons_self z ext))
    · exact hagree z (Or.inr (List.mem_cons_of_mem next hz))

theorem pathEdges_map_to : ∀ l : List Nat, (pathEdges l).map (fun c => c.«to») = l.tail := by
  intro l
  induction l with
  | nil => rfl
  | cons a rest ih =>
    cases rest with
    | nil => rfl
    | cons b rest' =>
      simp only [pathEdges, List.map_cons, ih]
      rfl

theorem pathEdges_from_mem : ∀ (l : List Nat) (conn : Connection),
    conn ∈ pathEdges l → conn.«from» ∈ l := by
  intro l
  induction l with
  | nil => simp [pathEdges]
  | cons a rest ih =>
    cases rest with
    | nil => simp [pathEdges]
    | cons b rest' =>
      intro conn hconn
      rcases List.mem_cons.mp hconn with rfl | hconn
      · exact List.mem_cons_self a _
      · exact List.mem_cons_of_mem a (ih conn hconn)

theorem pathEdges_to_mem_tail {l : List Nat} {conn : Connection}
    (h : conn ∈ pathEdges l) : conn.«to» ∈ l.tail := by
  rw [← pathEdges_map_to l]
  exact List.mem_map_of_mem (fun c => c.«to») h

theorem outSucc_pathEdges_head {x y : Nat} {rest : List Nat} (hx : x ∉ y :: rest) :
    outSucc (pathEdges (x :: y :: rest)) x = some y := by
  have hnone : (pathEdges (y :: rest)).reverse.find? (fun c => c.«from» == x) = none := by
    rw [List.find?_eq_none]
    intro c hc
    simp only [beq_iff_eq]
    intro hfrom
    rw [← hfrom] at hx
    exact hx (pathEdges_from_mem _ c (List.mem_reverse.mp hc))
  show ((Connection.mk x y :: pathEdges (y :: rest)).reverse.find?
    (fun c => c.«from» == x)).map (fun c => c.«to») = some y
  rw [List.reverse_cons, List.find?_append, hnone]
  simp

theorem outSucc_pathEdges_extend {x y z : Nat} {rest : List Nat} (hz : z ≠ x) :
    outSucc (pathEdges (x :: y :: rest)) z = outSucc (pathEdges (y :: rest)) z := by
  show ((Connection.mk x y :: pathEdges (y :: rest)).reverse.find?
      (fun c => c.«from» == z)).map (fun c => c.«to») = _
  rw [List.reverse_cons, List.find?_append]
  cases hf : (pathEdges (y :: rest)).reverse.find? (fun c => c.«from» == z) with
  | none => simp [outSucc, hf, Ne.symm hz]
  | some c => simp [outSucc, hf]

theorem suffWalk_pathEdges : ∀ (rest : List Nat) (x : Nat), (x :: rest).Nodup →
    SuffWalk (pathEdges (x :: rest)) x rest := by
  intro rest
  induction rest with
  | nil =>
    intro x _
    exact SuffWalk.nil x rfl
  | cons y rest' ih =>
    intro x hnd
    have hx : x ∉ y :: rest' := (List.nodup_cons.mp hnd).1
    have hnd' : (y :: rest').Nodup := (List.nodup_cons.mp hnd).2
    refine SuffWalk.cons x y rest' (outSucc_pathEdges_head hx) ?_
    refine suffWalk_congr ?_ (ih y hnd')
    intro z hz
    have hzmem : z ∈ y :: rest' := by
      rcases hz with rfl | hz
      · exact List.mem_cons_self z rest'
      · exact List.mem_cons_of_mem y hz
    have hzx : z ≠ x := by
      intro h
      rw [h] at hzmem
      exact hx hzmem
    exact (outSucc_pathEdges_extend hzx).symm

/-- Claim C6: whenever `get_pipeline_chain` returns a chain, the node
identities in it are pairwise distinct, and every consecutive pair `(a, b)`
of the chain is witnessed by a connection with `from = a` and `to = b` in the
graph's connection set. -/
theorem chain_nodup_and_edge_consistent (g : FlowChart) (c : List Nat)
    (h : chainReturns g (some c)) :
    c.Nodup ∧ List.Chain' (fun a b => ∃ conn ∈ g.connections,
      conn.«from» = a ∧ conn.«to» = b) c := by
  obtain ⟨s, ext, hs, rfl, hw⟩ := chainReturns_some_elim h
  exact ⟨suffWalk_nodup hw,
    List.Chain'.imp (fun a b hab => outSucc_exists_conn hab) (suffWalk_chain' hw)⟩

/-- Witness for C6 at the concrete path graph `gPath`. -/
theorem chain_nodup_and_edge_consistent_witness :
    ([1, 2, 3] : List Nat).Nodup ∧ List.Chain' (fun a b => ∃ conn ∈ gPath.connections,
      conn.«from» = a ∧ conn.«to» = b) [1, 2, 3] :=
  chain_nodup_and_edge_consistent gPath [1, 2, 3] ⟨3, rfl⟩

/-- Counterexample for C9 as stated: in `gDangling` the single connection
targets id `5`, which is not the identity of any node, yet the returned
chain is `[1, 5]`. -/
theorem chain_id_not_node_counterexample :
    chainReturns gDangling (some [1, 5]) ∧ ¬ ∃ n ∈ gDangling.nodes, n.id = 5 :=
  ⟨⟨2, rfl⟩, by decide⟩

/-- Claim C9 (amended): every identity in a chain returned by
`get_pipeline_chain` is either the identity of some node in the graph's node
set or the `to` endpoint of some connection in the connection set. -/
theorem chain_ids_node_or_connection_target (g : FlowChart) (c : List Nat)
    (h : chainReturns g (some c)) :
    ∀ x ∈ c, (∃ n ∈ g.nodes, n.id = x) ∨ ∃ conn ∈ g.connections, conn.«to» = x := by
  obtain ⟨s, ext, hs, rfl, hw⟩ := chainReturns_some_elim h
  intro x hx
  rcases List.mem_cons.mp hx with rfl | hx
  · exact Or.inl ⟨s, List.mem_of_find?_eq_some hs, rfl⟩
  · exact Or.inr (suffWalk_mem_to hw x hx)

/-- Witness for the amended C9 at `gDangling` and identity `5`. -/
theorem chain_ids_node_or_connection_target_witness :
    (∃ n ∈ gDangling.nodes, n.id = 5) ∨ ∃ conn ∈ gDangling.connections, conn.«to» = 5 :=
  chain_ids_node_or_connection_target gDangling [1, 5] ⟨2, rfl⟩ 5 (by decide)

/-- Claim C5: for every graph that is a single acyclic simple path
`n1 → n2 → ... → nk` with no other edges, `get_pipeline_chain` returns
`Some [n1, n2, ..., nk]`. -/
theorem path_graph_resolves_full_chain (g : FlowChart) (l : List Nat)
    (hne : l ≠ []) (hnd : l.Nodup)
    (hn : g.nodes.map (fun n => n.id) = l) (hc : g.connections = pathEdges l) :
    chainReturns g (some l) := by
  cases l with
  | nil => exact absurd rfl hne
  | cons x rest =>
    cases hg : g.nodes with
    | nil => rw [hg] at hn; exact absurd hn (by simp)
    | cons n0 ns =>
      rw [hg, List.map_cons] at hn
      have hn0 : n0.id = x := (List.cons.injEq _ _ _ _ ▸ hn).1
      have hx : x ∉ rest := (List.nodup_cons.mp hnd).1
      have hdeg : indegree g.connections n0.id = 0 := by
        rw [hc, hn0]
        unfold indegree
        rw [List.countP_eq_zero]
        intro conn hconn
        simp only [beq_iff_eq]
        intro hto
        rw [← hto] at hx
        exact hx (pathEdges_to_mem_tail hconn)
      have hstart : startNode? g = some n0 := by
        unfold startNode?
        rw [hg]
        exact List.find?_cons_of_pos _ (by simp [hdeg])
      have hw : SuffWalk g.connections n0.id rest := by
        rw [hc, hn0]
        exact suffWalk_pathEdges rest x hnd
      have := chainReturns_of_start_suffWalk hstart hw
      rw [hn0] at this
      exact this

/-- Witness for C5 at the concrete path graph `gPath` with ids `[1, 2, 3]`. -/
theorem path_graph_resolves_full_chain_witness :
    chainReturns gPath (some [1, 2, 3]) :=
  path_graph_resolves_full_chain gPath [1, 2, 3] (by decide) (by decide) rfl rfl

/-- Claim C7: the head of every returned chain is the id of the first node
in insertion order whose in-degree is zero (`startNode?`); every other
element of the chain has nonzero in-degree, so no other zero-in-degree node
can appear in the chain; a node set with no edges yields the single-element
chain of the first node in insertion order; and the empty node set yields
`None`. -/
theorem chain_start_first_zero_indegree (g : FlowChart) :
    (∀ c, chainReturns g (some c) →
      c.head? = (startNode? g).map (fun n => n.id))
    ∧ (∀ c, chainReturns g (some c) → ∀ x ∈ c.tail, indegree g.connections x ≠ 0)
    ∧ (g.connections = [] → ∀ n0, g.nodes.head? = some n0 → chainReturns g (some [n0.id]))
    ∧ (g.nodes = [] → chainReturns g none) := by
  refine ⟨?_, ?_, ?_, ?_⟩
  · intro c h
    obtain ⟨s, ext, hs, rfl, hw⟩ := chainReturns_some_elim h
    rw [hs]
    rfl
  · intro c h x hx
    obtain ⟨s, ext, hs, rfl, hw⟩ := chainReturns_some_elim h
    obtain ⟨conn, hmem, hto⟩ := suffWalk_mem_to hw x (by simpa using hx)
    unfold indegree
    intro h0
    rw [List.countP_eq_zero] at h0
    exact h0 conn hmem (by simp [hto])
  · intro hconn n0 hn0
    have hstart : startNode? g = some n0 := by
      unfold startNode?
      cases hg : g.nodes with
      | nil => rw [hg] at hn0; exact absurd hn0 (by simp)
      | cons m ms =>
        rw [hg] at hn0
        have hm : m = n0 := by simpa using hn0
        rw [hm]
        exact List.find?_cons_of_pos _ (by simp [indegree, hconn])
    have hw : SuffWalk g.connections n0.id [] :=
      SuffWalk.nil n0.id (by rw [hconn]; rfl)
    exact chainReturns_of_start_suffWalk hstart hw
  · intro hnodes
    refine ⟨0, ?_⟩
    unfold getPipelineChainFuel startNode?
    rw [hnodes]
    rfl

/-- Witness for C7: the four conjuncts instantiated at `gPath`, `gNoEdge` and
`emptyChart`. -/
theorem chain_start_first_zero_indegree_witness :
    ([1, 2, 3] : List Nat).head? = (startNode? gPath).map (fun n => n.id)
    ∧ indegree gPath.connections 2 ≠ 0
    ∧ chainReturns gNoEdge (some [7])
    ∧ chainReturns emptyChart none :=
  ⟨(chain_start_first_zero_indegree gPath).1 [1, 2, 3] ⟨3, rfl⟩,
   (chain_start_first_zero_indegree gPath).2.1 [1, 2, 3] ⟨3, rfl⟩ 2 (by decide),
   (chain_start_first_zero_indegree gNoEdge).2.2.1 rfl (mkNode 7 "echo g") rfl,
   (chain_start_first_zero_indegree emptyChart).2.2.2 rfl⟩

/-- Counterexample for C4 as stated: at the empty graph the caller stores
the message `"No valid pipeline chain found."`, which is not the string
`"no valid pipeline chain found"` the claim names. -/
theorem resolution_message_counterexample :
    executeCommand wOk 0 .runPipeline appEmpty =
      some { appEmpty with pipeline_output := "No valid pipeline chain found." }
    ∧ "No valid pipeline chain found." ≠ "no valid pipeline chain found" :=
  ⟨rfl, by decide⟩

/-- Claim C4 (amended: the reported message is the code's exact text
`"No valid pipeline chain found."`): for every graph in which no node has
in-degree zero, `get_pipeline_chain` returns `None` and `execute_command`
then stores that message, without crashing. -/
theorem no_start_reports_message (g : FlowChart)
    (h : ∀ n ∈ g.nodes, indegree g.connections n.id ≠ 0) :
    chainReturns g none ∧
    ∀ (w : World) (fuel : Nat) (s : PipelineApp), s.flowchart = g →
      executeCommand w fuel .runPipeline s =
        some { s with pipeline_output := "No valid pipeline chain found." } := by
  have hstart : startNode? g = none := by
    unfold startNode?
    rw [List.find?_eq_none]
    intro n hn
    simpa using h n hn
  refine ⟨⟨0, by unfold getPipelineChainFuel; rw [hstart]⟩, ?_⟩
  intro w fuel s hsg
  unfold executeCommand getPipelineChainFuel
  rw [hsg, hstart]

/-- Witness for the amended C4 at the entryless cycle `gCycNoEntry`. -/
theorem no_start_reports_message_witness :
    chainReturns gCycNoEntry none ∧
    executeCommand wOk 0 .runPipeline appCycNoEntry =
      some { appCycNoEntry with pipeline_output := "No valid pipeline chain found." } :=
  ⟨(no_start_reports_message gCycNoEntry (by decide)).1,
   (no_start_reports_message gCycNoEntry (by decide)).2 wOk 0 appCycNoEntry rfl⟩

/-- Claim C1 (code bug): on `gCyc`, whose cycle `2 → 3 → 2` is reachable
from the start node `1`, the walk of `get_pipeline_chain` never terminates:
for every iteration budget the loop is still running, so the function never
returns any chain, contrary to the claim that the walk stops at the first
revisit. -/
theorem walk_diverges_on_reachable_cycle :
    (∀ fuel, getPipelineChainFuel gCyc fuel = none) ∧ ∀ r, ¬ chainReturns gCyc r := by
  have key : ∀ fuel cur chain, (cur = 1 ∨ cur = 2 ∨ cur = 3) →
      walkFrom gCyc.connections fuel cur chain = none := by
    intro fuel
    induction fuel with
    | zero => intro cur chain _; rfl
    | succ n ih =>
      intro cur chain h
      rcases h with rfl | rfl | rfl
      · calc walkFrom gCyc.connections (n + 1) 1 chain
            = walkFrom gCyc.connections n 2 (chain ++ [2]) := rfl
          _ = none := ih 2 _ (Or.inr (Or.inl rfl))
      · calc walkFrom gCyc.connections (n + 1) 2 chain
            = walkFrom gCyc.connections n 3 (chain ++ [3]) := rfl
          _ = none := ih 3 _ (Or.inr (Or.inr rfl))
      · calc walkFrom gCyc.connections (n + 1) 3 chain
            = walkFrom gCyc.connections n 2 (chain ++ [2]) := rfl
          _ = none := ih 2 _ (Or.inr (Or.inl rfl))
  have hmain : ∀ fuel, getPipelineChainFuel gCyc fuel = none := by
    intro fuel
    have h0 : getPipelineChainFuel gCyc fuel =
        (walkFrom gCyc.connections fuel 1 [1]).map some := rfl
    rw [h0, key fuel 1 [1] (Or.inl rfl)]
    rfl
  refine ⟨hmain, ?_⟩
  rintro r ⟨fuel, h⟩
  rw [hmain fuel] at h
  exact absurd h (by simp)

theorem execAtAux_failed_stderr (w : World) :
    ∀ (cmds : List String) (idx : Nat) (input : String) (i : Nat) (o : Output),
      execAtAux w idx input cmds i = some (.done o) → o.success = false →
      runStages w idx input cmds = .error (w.lossy o.stderr) := by
  intro cmds
  induction cmds with
  | nil => intro idx input i o h _; simp [execAtAux] at h
  | cons c rest ih =>
    intro idx input i o h hf
    cases i with
    | zero =>
      have hp : w.pipeRun idx c input = .done o := Option.some.inj h
      simp [runStages, hp, hf]
    | succ i =>
      simp only [execAtAux] at h
      cases hp : w.pipeRun idx c input with
      | done o' =>
        simp only [hp] at h
        cases hs : o'.success with
        | false => simp [hs] at h
        | true =>
          simp [hs] at h
          have hrec := ih (idx + 1) (w.lossy o'.stdout) i o h hf
          simp [runStages, hp, hs, hrec]
      | spawnFail e => simp [hp] at h
      | stdinFail => simp [hp] at h
      | writeFail e => simp [hp] at h
      | waitFail e => simp [hp] at h

/-- Claim C2: for every command list and stage index `i`, if the run reaches
stage `i` and that stage exits with unsuccessful status, then
`run_pipeline_with_intermediates` returns `Err` carrying exactly stage `i`'s
captured standard-error bytes decoded by the lossy decoder — for the first
stage and every subsequent piped stage alike. -/
theorem stage_failure_returns_stderr (w : World) (cmds : List String) (i : Nat) (o : Output)
    (h : execAt w cmds i = some (.done o)) (hf : o.success = false) :
    runPipeline w cmds = .error (w.lossy o.stderr) := by
  cases cmds with
  | nil => simp [execAt] at h
  | cons c0 rest =>
    cases i with
    | zero =>
      simp only [execAt] at h
      cases hfr : w.firstRun c0 with
      | error e => simp [hfr] at h
      | ok o' =>
        simp only [hfr] at h
        have ho : o' = o := PipeExec.done.inj (Option.some.inj h)
        rw [ho] at hfr
        simp [runPipeline, hfr, hf]
    | succ i =>
      simp only [execAt] at h
      cases hfr : w.firstRun c0 with
      | error e => simp [hfr] at h
      | ok o' =>
        simp only [hfr] at h
        cases hs : o'.success with
        | false => simp [hs] at h
        | true =>
          simp [hs] at h
          have hrec := execAtAux_failed_stderr w rest 1 (w.lossy o'.stdout) i o h hf
          simp [runPipeline, hfr, hs, hrec]

/-- Witness for C2 at a two-stage pipeline whose second stage exits
unsuccessfully with stderr bytes `[66, 67]`. -/
theorem stage_failure_returns_stderr_witness :
    execAt wStage2Fails ["echo hi", "false"] 1 = some (.done ⟨false, [], [66, 67]⟩)
    ∧ runPipeline wStage2Fails ["echo hi", "false"] =
        .error (wStage2Fails.lossy [66, 67]) :=
  ⟨rfl, stage_failure_returns_stderr wStage2Fails ["echo hi", "false"] 1
    ⟨false, [], [66, 67]⟩ rfl rfl⟩

theorem execAtAux_failed_count (w : World) :
    ∀ (cmds : List String) (idx : Nat) (input : String) (i : Nat) (x : PipeExec),
      execAtAux w idx input cmds i = some x → x.failed = true →
      countStages w idx input cmds = i + 1 ∧ ∃ e, runStages w idx input cmds = .error e := by
  intro cmds
  induction cmds with
  | nil => intro idx input i x h _; simp [execAtAux] at h
  | cons c rest ih =>
    intro idx input i x h hx
    cases i with
    | zero =>
      have hp : w.pipeRun idx c input = x := Option.some.inj h
      cases x with
      | done o =>
        have hf : o.success = false := by simpa [PipeExec.failed] using hx
        exact ⟨by simp [countStages, hp, hf], ⟨w.lossy o.stderr, by simp [runStages, hp, hf]⟩⟩
      | spawnFail e =>
        exact ⟨by simp [countStages, hp],
          ⟨"Failed to run command '" ++ c ++ "': " ++ e, by simp [runStages, hp]⟩⟩
      | stdinFail =>
        exact ⟨by simp [countStages, hp],
          ⟨"Failed to open stdin", by simp [runStages, hp]⟩⟩
      | writeFail e =>
        exact ⟨by simp [countStages, hp],
          ⟨"Failed to write to stdin: " ++ e, by simp [runStages, hp]⟩⟩
      | waitFail e =>
        exact ⟨by simp [countStages, hp],
          ⟨"Error waiting on command '" ++ c ++ "': " ++ e, by simp [runStages, hp]⟩⟩
    | succ i =>
      simp only [execAtAux] at h
      cases hp : w.pipeRun idx c input with
      | done o' =>
        simp only [hp] at h
        cases hs : o'.success with
        | false => simp [hs] at h
        | true =>
          simp [hs] at h
          obtain ⟨hcount, e, he⟩ := ih (idx + 1) (w.lossy o'.stdout) i x h hx
          have hstep : countStages w idx input (c :: rest) =
              1 + countStages w (idx + 1) (w.lossy o'.stdout) rest := by
            simp [countStages, hp, hs]
          refine ⟨by rw [hstep, hcount]; omega, ⟨e, ?_⟩⟩
          simp [runStages, hp, hs, he]
      | spawnFail e => simp [hp] at h
      | stdinFail => simp [hp] at h
      | writeFail e => simp [hp] at h
      | waitFail e => simp [hp] at h

/-- Claim C8: for every command list, if the run reaches stage `i` and that
stage fails in any way (unsuccessful exit, spawn failure, stdin failure,
write failure or wait failure), then `run_pipeline_with_intermediates`
returns an `Err` and the number of stages for which a process start was
attempted is exactly `i + 1`: no command after the failing one is ever
executed. -/
theorem stage_failure_stops_pipeline (w : World) (cmds : List String) (i : Nat) (x : PipeExec)
    (h : execAt w cmds i = some x) (hx : x.failed = true) :
    spawnedCount w cmds = i + 1 ∧ ∃ e, runPipeline w cmds = .error e := by
  cases cmds with
  | nil => simp [execAt] at h
  | cons c0 rest =>
    cases i with
    | zero =>
      simp only [execAt] at h
      cases hfr : w.firstRun c0 with
      | error e =>
        exact ⟨by simp [spawnedCount, hfr],
          ⟨"Failed to run command '" ++ c0 ++ "': " ++ e, by simp [runPipeline, hfr]⟩⟩
      | ok o =>
        simp only [hfr] at h
        have hxo : x = .done o := (Option.some.inj h).symm
        have hf : o.success = false := by
          rw [hxo] at hx
          simpa [PipeExec.failed] using hx
        exact ⟨by simp [spawnedCount, hfr, hf],
          ⟨w.lossy o.stderr, by simp [runPipeline, hfr, hf]⟩⟩
    | succ i =>
      simp only [execAt] at h
      cases hfr : w.firstRun c0 with
      | error e => simp [hfr] at h
      | ok o' =>
        simp only [hfr] at h
        cases hs : o'.success with
        | false => simp [hs] at h
        | true =>
          simp [hs] at h
          obtain ⟨hcount, e, he⟩ := execAtAux_failed_count w rest 1 (w.lossy o'.stdout) i x h hx
          have hstep : spawnedCount w (c0 :: rest) =
              1 + countStages w 1 (w.lossy o'.stdout) rest := by
            simp [spawnedCount, hfr, hs]
          refine ⟨by rw [hstep, hcount]; omega, ⟨e, ?_⟩⟩
          simp [runPipeline, hfr, hs, he]

/-- Witness for C8 at a two-stage pipeline whose second stage fails. -/
theorem stage_failure_stops_pipeline_witness :
    spawnedCount wStage2Fails ["echo hi", "false"] = 2
    ∧ ∃ e, runPipeline wStage2Fails ["echo hi", "false"] = .error e :=
  stage_failure_stops_pipeline wStage2Fails ["echo hi", "false"] 1
    (.done ⟨false, [], [66, 67]⟩) rfl rfl

/-- Claim C3 (code bug): in the source, a piped stage performs its blocking
calls strictly in sequence — the complete `write_all` of the previous
output, then `close`, and only then `wait_with_output`, which is when the
child's standard output starts being read.  There is no concurrent writer
and reader, contrary to the claim. -/
theorem piped_stage_write_precedes_read :
    pipedStageEventOrder.indexOf .writeAllStdin <
      pipedStageEventOrder.indexOf .waitAndReadStdout
    ∧ pipedStageEventOrder.indexOf .closeStdin <
      pipedStageEventOrder.indexOf .waitAndReadStdout := by
  decide

/-- Claim C10: when a `RunPipeline` command results in a failure — no chain
was resolved, or the pipeline run returned an error — the whole flow-chart
(every node's output, the node set, the connection set, and all other
fields) is left unchanged; only `pipeline_output` is modified. -/
theorem run_pipeline_failure_frame (w : World) (fuel : Nat) (s s' : PipelineApp)
    (h : executeCommand w fuel .runPipeline s = some s')
    (hfail : getPipelineChainFuel s.flowchart fuel = some none ∨
      ∃ chain e, getPipelineChainFuel s.flowchart fuel = some (some chain) ∧
        runPipeline w (commandsOf s.flowchart chain) = .error e) :
    s'.flowchart = s.flowchart := by
  simp only [executeCommand] at h
  cases hg : getPipelineChainFuel s.flowchart fuel with
  | none => simp [hg] at h
  | some r =>
    cases r with
    | none =>
      simp only [hg] at h
      rw [← Option.some.inj h]
    | some chain =>
      simp only [hg] at h
      cases hr : runPipeline w (commandsOf s.flowchart chain) with
      | error e =>
        simp only [hr] at h
        rw [← Option.some.inj h]
      | ok outs =>
        simp only [hr] at h
        rcases hfail with hfail | ⟨chain', e, hch, he⟩
        · rw [hg] at hfail
          exact absurd (Option.some.inj hfail) (by simp)
        · rw [hg] at hch
          have hcc : chain = chain' := Option.some.inj (Option.some.inj hch)
          rw [← hcc] at he
          exact absurd (he.symm.trans hr) (by simp)

/-- Witness for C10: a `RunPipeline` on `appOneNode` whose only stage fails
leaves the flow-chart untouched. -/
theorem run_pipeline_failure_frame_witness :
    executeCommand wFirstFails 1 .runPipeline appOneNode =
      some (⟨gOneNode, "ERR"⟩ : PipelineApp)
    ∧ (⟨gOneNode, "ERR"⟩ : PipelineApp).flowchart = appOneNode.flowchart :=
  ⟨rfl, run_pipeline_failure_frame wFirstFails 1 appOneNode ⟨gOneNode, "ERR"⟩ rfl
    (Or.inr ⟨[1], "ERR", rfl, rfl⟩)⟩

end EchoFlow
